import Mathlib

/-!
Verification of the Restaurant-ETL menu parsing pipeline.

This file gives a shallow embedding, in Lean 4, of the text-to-structured-data
parsing pipeline of the repository (the `restaurant_etl.parsers.llm_parser`
and `restaurant_etl.models.menu_models` modules), and proves or refutes the
stated properties of the chunker, the retrying extraction call, the record
validator, the aggregator, and the summary statistics.

Modelling conventions:
- Python strings are `List Char`; Python `str.strip()` / `str.split()` are
  modelled with `Char.isWhitespace`.
- Python floats used for prices are modelled as rationals (`ℚ`); the code
  performs only comparisons, sums and one division on them.
- The external structured-generation capability (the Azure OpenAI client) is a
  parameter: a function from a chunk (and, for the retry model, an attempt
  number) to an optional schema-conforming response.  A raised exception /
  failed call is `none`.
- Python `or`-chaining on optional floats returns the first *truthy* operand
  (non-None and non-zero), else the last operand; this is modelled exactly
  by `pyOrQ`.
-/

namespace RestaurantETL

/-- Whitespace predicate standing for the character class that Python's
`str.strip()` / `str.split()` use. -/
def isPyWs (c : Char) : Bool := c.isWhitespace

/-- Python `s.strip()`: drop whitespace from both ends. -/
def pyStrip (s : List Char) : List Char :=
  ((s.dropWhile isPyWs).reverse.dropWhile isPyWs).reverse

/-- Python `s.split()` (no separator argument): the maximal non-empty runs of
non-whitespace characters. -/
def pySplit (s : List Char) : List (List Char) :=
  (s.splitOnP isPyWs).filter (fun w => ¬ w.isEmpty)

/-- `MenuItem.clean_name`: `' '.join(v.split())` followed by `strip()`
(`menu_models.py`, lines 64-68). -/
def cleanName (s : List Char) : List Char :=
  pyStrip (List.intercalate [' '] (pySplit s))

/-- Python `a or b` on two optional prices: `None` and `0` are falsy, so the
result is `a` when `a` is non-None and non-zero, else `b`. -/
def pyOrQ (a b : Option ℚ) : Option ℚ :=
  match a with
  | some q => if q = 0 then b else some q
  | none => b

/-- The chunk-size constant hard-coded in `LLMMenuParser._chunk_text`
(`llm_parser.py`, line 170): `max_chars = 2000`. -/
def maxChars : Nat := 2000

/-- The while-loop of `_chunk_text` before the per-chunk `strip()`:
`text[start:end]` segments of at most `max_chars` characters, in order
(`llm_parser.py`, lines 173-179). -/
def chunkLoop (text : List Char) : List (List Char) :=
  if text = [] then []
  else text.take maxChars :: chunkLoop (text.drop maxChars)
termination_by text.length
decreasing_by
  have : text.length ≠ 0 := by simp [List.length_eq_zero]; assumption
  simp only [List.length_drop, maxChars]
  omega

/-- The untrimmed contiguous segments underlying `_chunk_text`: the whole text
when it fits in one chunk, else the loop's raw `text[start:end]` slices. -/
def chunkSegments (text : List Char) : List (List Char) :=
  if text.length ≤ maxChars then [text] else chunkLoop text

/-- `LLMMenuParser._chunk_text` (`llm_parser.py`, lines 169-181): returns
`[text]` unchanged when `len(text) <= max_chars`; otherwise each loop segment
is appended after `chunk.strip()`. -/
def chunkText (text : List Char) : List (List Char) :=
  if text.length ≤ maxChars then [text]
  else (chunkLoop text).map pyStrip

lemma chunkLoop_nil : chunkLoop [] = [] := by
  rw [chunkLoop]
  simp

lemma chunkLoop_of_ne_nil (text : List Char) (h : text ≠ []) :
    chunkLoop text = text.take maxChars :: chunkLoop (text.drop maxChars) := by
  rw [chunkLoop]
  simp [h]

/-- Concatenating the loop's raw segments reconstructs the text. -/
lemma chunkLoop_flatten (text : List Char) : (chunkLoop text).flatten = text := by
  induction text using chunkLoop.induct with
  | case1 => simp [chunkLoop_nil]
  | case2 t h ih =>
    rw [chunkLoop_of_ne_nil t h]
    simp [ih]

/-- Each raw loop segment has length at most `maxChars`. -/
lemma chunkLoop_length_le (text : List Char) :
    ∀ c ∈ chunkLoop text, c.length ≤ maxChars := by
  induction text using chunkLoop.induct with
  | case1 => simp [chunkLoop_nil]
  | case2 t h ih =>
    rw [chunkLoop_of_ne_nil t h]
    intro c hc
    rcases List.mem_cons.mp hc with rfl | hc
    · exact List.length_take_le maxChars t
    · exact ih c hc

/-- The loop produces `⌈len/maxChars⌉` segments on non-empty text. -/
lemma chunkLoop_count (text : List Char) (h : text ≠ []) :
    (chunkLoop text).length = (text.length + (maxChars - 1)) / maxChars := by
  induction text using chunkLoop.induct with
  | case1 => exact absurd rfl h
  | case2 t h0 ih =>
    rw [chunkLoop_of_ne_nil t h0]
    have hlen : 0 < t.length := List.length_pos.mpr h0
    by_cases hle : t.length ≤ maxChars
    · have hdrop : t.drop maxChars = [] := List.drop_eq_nil_of_le hle
      rw [hdrop, chunkLoop_nil]
      simp only [List.length_cons, List.length_nil]
      have : (t.length + (maxChars - 1)) / maxChars = 1 := by
        apply Nat.div_eq_of_lt_le
        · simp only [Nat.one_mul, maxChars] at *; omega
        · simp only [maxChars] at *; omega
      omega
    · push_neg at hle
      have hne : t.drop maxChars ≠ [] := by
        simp only [ne_eq, List.drop_eq_nil_iff, not_le]
        simp only [maxChars] at *; omega
      rw [List.length_cons, ih hne]
      simp only [List.length_drop]
      have heq : t.length + (maxChars - 1)
          = (t.length - maxChars + (maxChars - 1)) + maxChars := by
        simp only [maxChars] at *; omega
      rw [heq, Nat.add_div_right _ (by decide : 0 < maxChars)]

/-- `pyStrip` never lengthens a string. -/
lemma pyStrip_length_le (s : List Char) : (pyStrip s).length ≤ s.length := by
  unfold pyStrip
  calc ((s.dropWhile isPyWs).reverse.dropWhile isPyWs).reverse.length
      = ((s.dropWhile isPyWs).reverse.dropWhile isPyWs).length := List.length_reverse _
    _ ≤ (s.dropWhile isPyWs).reverse.length :=
        ((s.dropWhile isPyWs).reverse.dropWhile_sublist isPyWs).length_le
    _ = (s.dropWhile isPyWs).length := List.length_reverse _
    _ ≤ s.length := (s.dropWhile_sublist isPyWs).length_le

/-! ## Data model (`menu_models.py`) and schema (`llm_parser.py`) -/

/-- One raw record of the wire schema `MENU_JSON_SCHEMA` (`llm_parser.py`,
lines 26-57): `item_name` required, every other field nullable, no additional
properties.  A field absent from the JSON object and a field set to `null`
are both `none` (they produce the same `MenuItem` keyword default). -/
structure RawItem where
  itemName : List Char
  category : Option (List Char) := none
  description : Option (List Char) := none
  price : Option ℚ := none
  halfPlatePrice : Option ℚ := none
  fullPlatePrice : Option ℚ := none
  smallPrice : Option ℚ := none
  mediumPrice : Option ℚ := none
  largePrice : Option ℚ := none
  priceDisplay : Option (List Char) := none
deriving DecidableEq, Repr

/-- A schema-conforming response: `{"items": [...]}`. -/
structure RawSchema where
  items : List RawItem
deriving DecidableEq, Repr

/-- A validated `MenuItem` (`menu_models.py`, lines 6-62).  Only the fields
the pipeline can populate are modelled; `currency`, `spice_level` and
`dietary_tags` are never present in a schema-conforming raw record, so the
parser always leaves them at their defaults. -/
structure MenuItem where
  itemName : List Char
  category : Option (List Char) := none
  description : Option (List Char) := none
  price : Option ℚ := none
  halfPlatePrice : Option ℚ := none
  fullPlatePrice : Option ℚ := none
  smallPrice : Option ℚ := none
  mediumPrice : Option ℚ := none
  largePrice : Option ℚ := none
deriving DecidableEq, Repr

/-- `MenuItem.validate_price` (`menu_models.py`, lines 81-90): a present
price is rejected when negative or above 100000, otherwise returned
unchanged.  (The `ge=0` field constraint rejects the same negatives.) -/
def priceFieldOk (v : Option ℚ) : Bool :=
  match v with
  | none => true
  | some q => ¬ q < 0 ∧ ¬ q > 100000

/-- `MenuItem(**raw)` as pydantic runs it: the `min_length=2` constraint on
the raw `item_name`, the six `validate_price` checks, and the `clean_name`
normalisation applied after the constraint passes.  Any failure raises, which
the caller turns into a dropped record, hence `Option` (`menu_models.py`,
lines 6-90).  The extra `price_display` key of the wire schema is ignored. -/
def validateItem (raw : RawItem) : Option MenuItem :=
  if raw.itemName.length < 2 then none
  else if priceFieldOk raw.price ∧ priceFieldOk raw.halfPlatePrice ∧
          priceFieldOk raw.fullPlatePrice ∧ priceFieldOk raw.smallPrice ∧
          priceFieldOk raw.mediumPrice ∧ priceFieldOk raw.largePrice then
    some { itemName := cleanName raw.itemName
           category := raw.category
           description := raw.description
           price := raw.price
           halfPlatePrice := raw.halfPlatePrice
           fullPlatePrice := raw.fullPlatePrice
           smallPrice := raw.smallPrice
           mediumPrice := raw.mediumPrice
           largePrice := raw.largePrice }
  else none

/-- `MenuItem.has_any_price` (`menu_models.py`, lines 92-101). -/
def hasAnyPrice (m : MenuItem) : Bool :=
  m.price.isSome || m.halfPlatePrice.isSome || m.fullPlatePrice.isSome ||
  m.smallPrice.isSome || m.mediumPrice.isSome || m.largePrice.isSome

/-- `MenuItem.get_primary_price` (`menu_models.py`, lines 125-133): the
Python `or`-chain `price or full_plate_price or half_plate_price or
large_price or medium_price or small_price`. -/
def getPrimaryPrice (m : MenuItem) : Option ℚ :=
  pyOrQ m.price (pyOrQ m.fullPlatePrice (pyOrQ m.halfPlatePrice
    (pyOrQ m.largePrice (pyOrQ m.mediumPrice m.smallPrice))))

/-- `MenuData` (`menu_models.py`, lines 136-175), restricted to the fields the
claims mention. -/
structure MenuData where
  items : List MenuItem := []
  restaurantName : Option (List Char) := none
  totalItems : Nat := 0
  sourceFile : Option (List Char) := none
  extractionConfidence : ℚ := 1
  detectedCurrency : Option (List Char) := none
  extractionMethod : Option (List Char) := none
deriving DecidableEq, Repr

/-- Python `a or b` where `a` is an optional string: `None` and `""` are
falsy. -/
def pyOrStr (a : Option (List Char)) (b : List Char) : List Char :=
  match a with
  | some s => if s = [] then b else s
  | none => b

/-! ## The orchestrator `parse_menu` (`llm_parser.py`, lines 84-115)

`parse_menu` is parameterised by the text normaliser
(`normalize_extracted_text`, imported from a module outside the parser) and
by the per-chunk extraction outcome (`_call_llm_with_retries`): `none` is a
chunk whose extraction failed all retries, `some r` a schema-conforming
response. -/

/-- The raw items one chunk contributes to `all_items`: the response's
`items` on success, nothing on failure. -/
def chunkRawItems (extract : List Char → Option RawSchema) (c : List Char) : List RawItem :=
  match extract c with
  | some r => r.items
  | none => []

/-- The per-record keep decision of the validation loop (`llm_parser.py`,
lines 98-105): construct a `MenuItem`, keep it only if it has a price; any
construction failure is swallowed by `continue`. -/
def keepItem (raw : RawItem) : Option MenuItem :=
  match validateItem raw with
  | some obj => if hasAnyPrice obj then some obj else none
  | none => none

/-- `LLMMenuParser.parse_menu` (`llm_parser.py`, lines 84-115). -/
def parseMenu (norm : List Char → List Char) (extract : List Char → Option RawSchema)
    (text : List Char) (restaurantName : Option (List Char)) : MenuData :=
  let clean := norm text
  let chunks := chunkText clean
  let allItems := chunks.flatMap (chunkRawItems extract)
  let validItems := allItems.filterMap keepItem
  { items := validItems
    restaurantName := some (pyOrStr restaurantName ("Unknown".toList))
    totalItems := validItems.length
    extractionConfidence := (validItems.length : ℚ) / ((max 1 allItems.length : ℕ) : ℚ) }

/-- Total raw items the extraction returned across the given chunks, counted
chunk by chunk (the denominator `len(all_items)` of the confidence ratio). -/
def rawItemCount (extract : List Char → Option RawSchema) (chunks : List (List Char)) : Nat :=
  (chunks.map (fun c => (chunkRawItems extract c).length)).sum

/-- Validated-and-priced items across the given chunks, counted chunk by
chunk (the numerator `len(valid_items)` of the confidence ratio). -/
def keptItemCount (extract : List Char → Option RawSchema) (chunks : List (List Char)) : Nat :=
  (chunks.map (fun c => (chunkRawItems extract c).countP (fun raw => (keepItem raw).isSome))).sum

/-! ## The retrying extraction call (`llm_parser.py`, lines 116-127)

`_call_llm_with_retries` loops `attempt` from 1 to `max_retries`; each
iteration either returns the successful call's result, or, on an exception,
returns `None` when `attempt == max_retries` and otherwise sleeps `backoff`
time-units and doubles `backoff`.  The underlying call is a parameter
`res : Nat → Option α` giving the outcome of each attempt (`none` = the call
raised).  The model also returns the list of sleep durations, in order, so
the backoff schedule is part of the observable result. -/

/-- `self.max_retries = 3` (`llm_parser.py`, line 79). -/
def maxRetries : Nat := 3

/-- The body of the retry loop from a given attempt number and backoff.
Inside the loop `attempt ≤ max_retries` always holds, so the code's
`attempt == max_retries` test is written as the loop-continuation test
`attempt < max_retries`. -/
def retryFrom (res : Nat → Option α) (attempt backoff : Nat) : Option α × List Nat :=
  match res attempt with
  | some r => (some r, [])
  | none =>
    if h : attempt < maxRetries then
      let rest := retryFrom res (attempt + 1) (backoff * 2)
      (rest.1, backoff :: rest.2)
    else (none, [])
termination_by maxRetries - attempt

/-- `LLMMenuParser._call_llm_with_retries`: `backoff = 1`, attempts start
at 1. -/
def callWithRetries (res : Nat → Option α) : Option α × List Nat :=
  retryFrom res 1 1

/-! ## `MenuData.get_summary` (`menu_models.py`, lines 223-250) -/

/-- The `min`/`max`/`avg` record of the summary's `price_range`. -/
structure PriceRange where
  min : Option ℚ
  max : Option ℚ
  avg : Option ℚ
deriving DecidableEq, Repr

/-- The dict returned by `get_summary`.  The Python dict `categories` is an
insertion-ordered association list. -/
structure Summary where
  totalItems : Nat
  itemsWithPrices : Nat
  categories : List (List Char × Nat)
  priceRange : PriceRange
  currency : Option (List Char)
deriving DecidableEq, Repr

/-- `categories[cat] = categories.get(cat, 0) + 1` on an insertion-ordered
dict: increment in place when present, else append. -/
def bumpCategory (l : List (List Char × Nat)) (k : List Char) : List (List Char × Nat) :=
  match l with
  | [] => [(k, 1)]
  | (k0, n) :: rest => if k0 = k then (k0, n + 1) :: rest else (k0, n) :: bumpCategory rest k

/-- Python `min(l)` on a non-empty list, `None` guard handled by caller. -/
def pyMinQ (l : List ℚ) : Option ℚ :=
  match l with
  | [] => none
  | x :: xs => some (xs.foldl min x)

/-- Python `max(l)`. -/
def pyMaxQ (l : List ℚ) : Option ℚ :=
  match l with
  | [] => none
  | x :: xs => some (xs.foldl max x)

/-- One iteration of the `get_summary` loop over `(categories,
total_with_prices, price_range)`: bump the category histogram under
`item.category or "Uncategorized"`, and when the item has a price, count it
and append its primary price to `price_range` — but only `if primary_price:`
is truthy (non-None and non-zero). -/
def summaryStep (st : List (List Char × Nat) × Nat × List ℚ) (item : MenuItem) :
    List (List Char × Nat) × Nat × List ℚ :=
  let cats := bumpCategory st.1 (pyOrStr item.category ("Uncategorized".toList))
  if hasAnyPrice item then
    match getPrimaryPrice item with
    | some q => if q = 0 then (cats, st.2.1 + 1, st.2.2) else (cats, st.2.1 + 1, st.2.2 ++ [q])
    | none => (cats, st.2.1 + 1, st.2.2)
  else (cats, st.2.1, st.2.2)

/-- `MenuData.get_summary` (`menu_models.py`, lines 223-250). -/
def getSummary (md : MenuData) : Summary :=
  let st := md.items.foldl summaryStep ([], 0, [])
  { totalItems := md.items.length
    itemsWithPrices := st.2.1
    categories := st.1
    priceRange :=
      { min := pyMinQ st.2.2
        max := pyMaxQ st.2.2
        avg := match st.2.2 with
               | [] => none
               | l => some (l.sum / (l.length : ℚ)) }
    currency := md.detectedCurrency }

/-! ## Definitions following the spec's words, for comparison

These two definitions are written from the specification text, not from the
source, and exist only to be compared with the source-derived definitions
above. -/

/-- Modelled from the spec: "primary price = first non-null in a fixed
priority order: single, full, half, large, medium, small" (§3). -/
def specFirstNonNullPrice (m : MenuItem) : Option ℚ :=
  match m.price with
  | some q => some q
  | none =>
    match m.fullPlatePrice with
    | some q => some q
    | none =>
      match m.halfPlatePrice with
      | some q => some q
      | none =>
        match m.largePrice with
        | some q => some q
        | none =>
          match m.mediumPrice with
          | some q => some q
          | none => m.smallPrice

/-- Modelled from the spec: the price list the summary's min/max/avg are
claimed to range over — "the primary price of every item that has at least
one price" (with the spec's first-non-null primary price). -/
def specPriceList (md : MenuData) : List ℚ :=
  (md.items.filter hasAnyPrice).filterMap specFirstNonNullPrice

/-! ## Auxiliary definitions used by the theorems -/

/-- The six price fields of an item in the priority order of
`get_primary_price`. -/
def priorityFields (m : MenuItem) : List (Option ℚ) :=
  [m.price, m.fullPlatePrice, m.halfPlatePrice, m.largePrice, m.mediumPrice, m.smallPrice]

/-- Python truthiness of an optional price: `None` and `0` are falsy. -/
def pyTruthyQ (v : Option ℚ) : Bool :=
  match v with
  | some q => decide (q ≠ 0)
  | none => false

/-- Lookup in the insertion-ordered histogram, defaulting to 0. -/
def lookupCount (l : List (List Char × Nat)) (k : List Char) : Nat :=
  match l with
  | [] => 0
  | (k0, n) :: rest => if k0 = k then n else lookupCount rest k

/-- The category an item is counted under: `item.category or "Uncategorized"`. -/
def effCategory (i : MenuItem) : List Char :=
  pyOrStr i.category ("Uncategorized".toList)

/-- The contribution of one item to the summary's `price_range` list: its
primary price, when the item has a price and the primary price is truthy. -/
def truthyPrimary (i : MenuItem) : Option ℚ :=
  if hasAnyPrice i then
    match getPrimaryPrice i with
    | some q => if q = 0 then none else some q
    | none => none
  else none

/-! ## Chunker theorems (claims C4, C5, C6) -/

lemma pyStrip_replicate_a (n : Nat) :
    pyStrip (List.replicate n 'a') = List.replicate n 'a' := by
  have hdrop : ∀ m : Nat, (List.replicate m 'a').dropWhile isPyWs = List.replicate m 'a' := by
    intro m
    cases m with
    | zero => rfl
    | succ k =>
      rw [List.replicate_succ, List.dropWhile_cons]
      simp [isPyWs]
  unfold pyStrip
  rw [hdrop, List.reverse_replicate, hdrop, List.reverse_replicate]

/-- C4: for every text longer than `max_chars` (2000), every chunk returned
by `_chunk_text` has length at most `max_chars` and the number of chunks is
`⌈len(T)/max_chars⌉ = (len(T) + 1999) / 2000`; in particular a 5000-character
input produces exactly three chunks of sizes 2000, 2000 and 1000. -/
theorem chunkText_bound_and_count :
    (∀ text : List Char, maxChars < text.length →
        (∀ c ∈ chunkText text, c.length ≤ maxChars) ∧
        (chunkText text).length = (text.length + (maxChars - 1)) / maxChars) ∧
    (chunkText (List.replicate 5000 'a')).map List.length = [2000, 2000, 1000] := by
  constructor
  · intro text hlen
    have hne : ¬ text.length ≤ maxChars := not_le.mpr hlen
    have hchunk : chunkText text = (chunkLoop text).map pyStrip := by
      unfold chunkText
      rw [if_neg hne]
    constructor
    · intro c hc
      rw [hchunk] at hc
      obtain ⟨c0, hc0, rfl⟩ := List.mem_map.mp hc
      exact le_trans (pyStrip_length_le c0) (chunkLoop_length_le text c0 hc0)
    · rw [hchunk, List.length_map]
      apply chunkLoop_count
      intro h
      rw [h] at hlen
      simp [maxChars] at hlen
  · have e1 : (List.replicate 5000 'a').take maxChars = List.replicate 2000 'a' := by
      rw [List.take_replicate]
      norm_num [maxChars]
    have e2 : (List.replicate 5000 'a').drop maxChars = List.replicate 3000 'a' := by
      rw [List.drop_replicate]
      norm_num [maxChars]
    have e3 : (List.replicate 3000 'a').take maxChars = List.replicate 2000 'a' := by
      rw [List.take_replicate]
      norm_num [maxChars]
    have e4 : (List.replicate 3000 'a').drop maxChars = List.replicate 1000 'a' := by
      rw [List.drop_replicate]
      norm_num [maxChars]
    have e5 : (List.replicate 1000 'a').take maxChars = List.replicate 1000 'a' := by
      rw [List.take_replicate]
      norm_num [maxChars]
    have e6 : (List.replicate 1000 'a').drop maxChars = ([] : List Char) := by
      rw [List.drop_replicate]
      norm_num [maxChars]
    have hne : ∀ m : Nat, m ≠ 0 → List.replicate m 'a' ≠ ([] : List Char) := by
      intro m hm hc
      have := congrArg List.length hc
      rw [List.length_replicate, List.length_nil] at this
      exact hm this
    have hloop : chunkLoop (List.replicate 5000 'a')
        = [List.replicate 2000 'a', List.replicate 2000 'a', List.replicate 1000 'a'] := by
      rw [chunkLoop_of_ne_nil _ (hne 5000 (by norm_num)), e1, e2,
          chunkLoop_of_ne_nil _ (hne 3000 (by norm_num)), e3, e4,
          chunkLoop_of_ne_nil _ (hne 1000 (by norm_num)), e5, e6, chunkLoop_nil]
    have hgt : ¬ (List.replicate 5000 'a').length ≤ maxChars := by
      rw [List.length_replicate]
      decide
    unfold chunkText
    rw [if_neg hgt, hloop]
    simp only [List.map_cons, List.map_nil, pyStrip_replicate_a, List.length_replicate]

/-- Witness for `chunkText_bound_and_count`: on the concrete 2001-character
input the chunk count is `⌈2001/2000⌉ = 2`. -/
theorem chunkText_bound_and_count_witness :
    (chunkText (List.replicate 2001 'a')).length = 2 := by
  have h := (chunkText_bound_and_count.1 (List.replicate 2001 'a')
    (by rw [List.length_replicate]; decide)).2
  rw [h, List.length_replicate]
  decide

/-- C5: the chunker never drops or duplicates characters — the concatenation
of the untrimmed contiguous segments reconstructs the text exactly, and
`_chunk_text` returns exactly those segments (trimmed, in the multi-chunk
case). -/
theorem chunkText_reconstructs (text : List Char) :
    (chunkSegments text).flatten = text ∧
    chunkText text =
      (if text.length ≤ maxChars then chunkSegments text
       else (chunkSegments text).map pyStrip) := by
  constructor
  · unfold chunkSegments
    split
    · simp
    · exact chunkLoop_flatten text
  · unfold chunkText chunkSegments
    split <;> rfl

/-- Counterexample to C6: on the two-character input `" a"` (which fits in a
single chunk) `_chunk_text` returns the text untrimmed, not the
whitespace-trimmed text the claim describes. -/
theorem chunkText_short_not_trimmed :
    chunkText [' ', 'a'] ≠ [pyStrip [' ', 'a']] ∧
    chunkText [' ', 'a'] = [[' ', 'a']] ∧
    pyStrip [' ', 'a'] = ['a'] := by
  refine ⟨?_, by decide, by decide⟩
  decide

/-- C6 (amended): for every text of length at most `max_chars`, `_chunk_text`
returns the single-element sequence containing the text unchanged (no
trimming is applied on this path); in particular the empty input yields a
single empty-string chunk. -/
theorem chunkText_short_id :
    (∀ text : List Char, text.length ≤ maxChars → chunkText text = [text]) ∧
    chunkText [] = [[]] := by
  constructor
  · intro text h
    unfold chunkText
    rw [if_pos h]
  · decide

/-- Witness for `chunkText_short_id`: the concrete input `"hi"`. -/
theorem chunkText_short_id_witness :
    chunkText ['h', 'i'] = [['h', 'i']] :=
  chunkText_short_id.1 ['h', 'i'] (by decide)

/-! ## Primary-price theorems (claim C2) -/

/-- An item whose highest-priority populated field holds 0: `price = 0`,
`full_plate_price = 5`. -/
def zeroPriceItem : MenuItem :=
  { itemName := ['A', 'a'], price := some 0, fullPlatePrice := some 5 }

/-- Counterexample to C2: on an item with `price = 0` and
`full_plate_price = 5`, the first non-null field holds 0 but
`get_primary_price` skips it (Python `or` treats `0.0` as falsy) and returns
5 instead. -/
theorem getPrimaryPrice_not_first_nonnull :
    getPrimaryPrice zeroPriceItem ≠ specFirstNonNullPrice zeroPriceItem ∧
    specFirstNonNullPrice zeroPriceItem = some 0 ∧
    getPrimaryPrice zeroPriceItem = some 5 := by
  refine ⟨?_, by decide, by decide⟩
  decide

/-- A Python `or`-chain over optional prices, folded right, picks the first
truthy operand and otherwise the last operand. -/
lemma pyOrQ_foldr (l : List (Option ℚ)) (last : Option ℚ) :
    l.foldr pyOrQ last = ((l ++ [last]).find? pyTruthyQ).getD last := by
  induction l with
  | nil =>
    simp only [List.foldr_nil, List.nil_append, List.find?]
    cases last with
    | none => rfl
    | some q => by_cases hq : q = 0 <;> simp [pyTruthyQ, hq]
  | cons a l ih =>
    simp only [List.foldr_cons, List.cons_append, List.find?]
    cases a with
    | none => simpa [pyOrQ, pyTruthyQ] using ih
    | some q =>
      by_cases hq : q = 0 <;> simp [pyOrQ, pyTruthyQ, hq, ih]

/-- C2 (amended): `get_primary_price` returns the first price field in the
priority order price, full_plate_price, half_plate_price, large_price,
medium_price, small_price that is non-null **and non-zero**; when every field
is null or zero it returns the value of `small_price` (null, or 0 when
`small_price` is 0). -/
theorem getPrimaryPrice_first_truthy (m : MenuItem) :
    getPrimaryPrice m = ((priorityFields m).find? pyTruthyQ).getD m.smallPrice := by
  have h := pyOrQ_foldr
    [m.price, m.fullPlatePrice, m.halfPlatePrice, m.largePrice, m.mediumPrice] m.smallPrice
  simpa [getPrimaryPrice, priorityFields, List.foldr] using h

/-! ## Validator theorems (claims C7, C10) -/

/-- A passing price check means the value, when present, is within
`[0, 100000]`. -/
lemma priceFieldOk_bounds {v : Option ℚ} (h : priceFieldOk v = true) :
    ∀ q : ℚ, v = some q → 0 ≤ q ∧ q ≤ 100000 := by
  intro q hq
  subst hq
  simp only [priceFieldOk, Bool.and_eq_true, decide_eq_true_eq, not_lt, not_lt] at h
  obtain ⟨h1, h2⟩ := h
  exact ⟨h1, not_lt.mp (by simpa using h2)⟩

/-- A validated item carries exactly the raw record's price fields. -/
lemma validateItem_fields {raw : RawItem} {m : MenuItem}
    (h : validateItem raw = some m) :
    m.price = raw.price ∧ m.halfPlatePrice = raw.halfPlatePrice ∧
    m.fullPlatePrice = raw.fullPlatePrice ∧ m.smallPrice = raw.smallPrice ∧
    m.mediumPrice = raw.mediumPrice ∧ m.largePrice = raw.largePrice ∧
    m.itemName = cleanName raw.itemName ∧ m.category = raw.category := by
  unfold validateItem at h
  split_ifs at h
  injection h with h
  subst h
  exact ⟨rfl, rfl, rfl, rfl, rfl, rfl, rfl, rfl⟩

/-- Validation succeeds only when every price check passes. -/
lemma validateItem_priceOk {raw : RawItem} {m : MenuItem}
    (h : validateItem raw = some m) :
    priceFieldOk raw.price = true ∧ priceFieldOk raw.halfPlatePrice = true ∧
    priceFieldOk raw.fullPlatePrice = true ∧ priceFieldOk raw.smallPrice = true ∧
    priceFieldOk raw.mediumPrice = true ∧ priceFieldOk raw.largePrice = true := by
  unfold validateItem at h
  split_ifs at h with h1 h2
  simp only [decide_eq_true_eq] at h2
  exact ⟨by simp [h2.1], by simp [h2.2.1], by simp [h2.2.2.1],
         by simp [h2.2.2.2.1], by simp [h2.2.2.2.2.1], by simp [h2.2.2.2.2.2]⟩

/-- C7: every price field of a validated `MenuItem`, when present, lies
within `[0, 100000]`; a raw record with a price of 150000 or -5 is rejected
(dropped), while 99999.99 is accepted. -/
theorem validateItem_price_bounds :
    (∀ (raw : RawItem) (m : MenuItem), validateItem raw = some m →
        ∀ v ∈ priorityFields m, ∀ q : ℚ, v = some q → 0 ≤ q ∧ q ≤ 100000) ∧
    validateItem { itemName := ['A', 'a'], price := some 150000 } = none ∧
    validateItem { itemName := ['A', 'a'], price := some (-5) } = none ∧
    (validateItem { itemName := ['A', 'a'], price := some (9999999 / 100) }).isSome = true := by
  refine ⟨?_, by decide, by decide,
    by unfold validateItem priceFieldOk; norm_num⟩
  intro raw m h v hv q hq
  obtain ⟨e1, e2, e3, e4, e5, e6, _, _⟩ := validateItem_fields h
  obtain ⟨o1, o2, o3, o4, o5, o6⟩ := validateItem_priceOk h
  simp only [priorityFields, List.mem_cons, List.not_mem_nil, or_false] at hv
  rcases hv with rfl | rfl | rfl | rfl | rfl | rfl
  · exact priceFieldOk_bounds (e1 ▸ o1) q hq
  · exact priceFieldOk_bounds (e3 ▸ o3) q hq
  · exact priceFieldOk_bounds (e2 ▸ o2) q hq
  · exact priceFieldOk_bounds (e6 ▸ o6) q hq
  · exact priceFieldOk_bounds (e5 ▸ o5) q hq
  · exact priceFieldOk_bounds (e4 ▸ o4) q hq

/-- Witness for `validateItem_price_bounds`: a record with price 10 validates
and the bound holds at 10. -/
theorem validateItem_price_bounds_witness :
    0 ≤ (10 : ℚ) ∧ (10 : ℚ) ≤ 100000 :=
  validateItem_price_bounds.1
    { itemName := ['A', 'a'], price := some 10 }
    { itemName := ['A', 'a'], price := some 10 }
    (by decide) (some 10) (by decide) 10 rfl

/-- C10: a raw record whose `item_name` has fewer than 2 characters is
rejected by validation (pydantic's `min_length=2` on the raw value), even
when the name is non-empty; a 2-character name is accepted. -/
theorem validateItem_short_name :
    (∀ raw : RawItem, raw.itemName.length < 2 → validateItem raw = none) ∧
    validateItem { itemName := ['A'], price := some 5 } = none ∧
    (validateItem { itemName := ['A', 'b'], price := some 5 }).isSome = true := by
  refine ⟨?_, by decide, by decide⟩
  intro raw h
  unfold validateItem
  rw [if_pos h]

/-- Witness for `validateItem_short_name`: the one-character name `"X"`. -/
theorem validateItem_short_name_witness :
    validateItem { itemName := ['X'], price := some 3 } = none :=
  validateItem_short_name.1 { itemName := ['X'], price := some 3 } (by decide)

/-! ## Aggregation theorems (claims C8, C1) -/

/-- A kept record is a validated item with at least one price. -/
lemma keepItem_some {raw : RawItem} {m : MenuItem} (h : keepItem raw = some m) :
    hasAnyPrice m = true ∧ validateItem raw = some m := by
  unfold keepItem at h
  cases hv : validateItem raw with
  | none => rw [hv] at h; exact absurd h (by simp)
  | some obj =>
    rw [hv] at h
    dsimp only at h
    split_ifs at h with hp
    · injection h with h
      subst h
      exact ⟨hp, rfl⟩

/-- C8: every item in the `MenuData` returned by `parse_menu` has at least
one price; consequently a schema-valid raw record with all six price fields
null is never retained, whatever the normaliser, the extraction outcomes,
the input text and the restaurant name. -/
theorem parse_items_priced :
    ∀ (norm : List Char → List Char) (extract : List Char → Option RawSchema)
      (text : List Char) (name : Option (List Char)),
      (∀ m ∈ (parseMenu norm extract text name).items, hasAnyPrice m = true) ∧
      (∀ (raw : RawItem) (obj : MenuItem),
        raw.price = none → raw.halfPlatePrice = none → raw.fullPlatePrice = none →
        raw.smallPrice = none → raw.mediumPrice = none → raw.largePrice = none →
        validateItem raw = some obj →
        obj ∉ (parseMenu norm extract text name).items) := by
  intro norm extract text name
  have hmem : ∀ m ∈ (parseMenu norm extract text name).items, hasAnyPrice m = true := by
    intro m hm
    have hitems : (parseMenu norm extract text name).items
        = ((chunkText (norm text)).flatMap (chunkRawItems extract)).filterMap keepItem := rfl
    rw [hitems] at hm
    obtain ⟨raw, _, hk⟩ := List.mem_filterMap.mp hm
    exact (keepItem_some hk).1
  refine ⟨hmem, ?_⟩
  intro raw obj h1 h2 h3 h4 h5 h6 hv hin
  have hp := hmem obj hin
  obtain ⟨e1, e2, e3, e4, e5, e6, _, _⟩ := validateItem_fields hv
  simp [hasAnyPrice, e1, e2, e3, e4, e5, e6, h1, h2, h3, h4, h5, h6] at hp

/-- A raw record with a price, for concrete runs. -/
def rawPriced : RawItem := { itemName := ['A', 'a'], price := some 5 }

/-- An extraction outcome returning one priced item for every chunk. -/
def extractOne : List Char → Option RawSchema := fun _ => some ⟨[rawPriced]⟩

/-- Witness for `parse_items_priced`: in a concrete run the single retained
item indeed has a price. -/
theorem parse_items_priced_witness :
    hasAnyPrice { itemName := ['A', 'a'], price := some 5 } = true :=
  (parse_items_priced id extractOne ['h', 'i'] none).1
    { itemName := ['A', 'a'], price := some 5 } (by decide)

/-- The chunk-wise kept count agrees with the length of the aggregated
validated list. -/
lemma keptItemCount_eq (extract : List Char → Option RawSchema)
    (chunks : List (List Char)) :
    ((chunks.flatMap (chunkRawItems extract)).filterMap keepItem).length
      = keptItemCount extract chunks := by
  rw [List.length_filterMap_eq_countP]
  unfold keptItemCount
  induction chunks with
  | nil => simp
  | cons c cs ih =>
    simp only [List.flatMap_cons, List.countP_append, List.map_cons, List.sum_cons, ih]

/-- The chunk-wise raw count agrees with the length of `all_items`. -/
lemma rawItemCount_eq (extract : List Char → Option RawSchema)
    (chunks : List (List Char)) :
    (chunks.flatMap (chunkRawItems extract)).length = rawItemCount extract chunks := by
  unfold rawItemCount
  induction chunks with
  | nil => simp
  | cons c cs ih =>
    simp only [List.flatMap_cons, List.length_append, List.map_cons, List.sum_cons, ih]

/-- C1: `parse_menu` returns a `MenuData` whose `extraction_confidence` is
the number of validated, priced items divided by `max(1, raw items returned
across all chunks)`; the confidence always lies in `[0, 1]` (so the
`MenuData` field constraints hold and no exception is raised, and the
denominator guard prevents any division error); and when every chunk's
extraction fails — which is what the code does on empty input, whose single
empty chunk yields no raw items — the result has no items, `total_items = 0`
and confidence 0. -/
theorem parse_confidence :
    ∀ (norm : List Char → List Char) (extract : List Char → Option RawSchema)
      (text : List Char) (name : Option (List Char)),
      (parseMenu norm extract text name).extractionConfidence
        = (keptItemCount extract (chunkText (norm text)) : ℚ)
          / ((max 1 (rawItemCount extract (chunkText (norm text))) : ℕ) : ℚ) ∧
      (parseMenu norm extract text name).totalItems
        = keptItemCount extract (chunkText (norm text)) ∧
      0 ≤ (parseMenu norm extract text name).extractionConfidence ∧
      (parseMenu norm extract text name).extractionConfidence ≤ 1 ∧
      ((∀ c : List Char, extract c = none) →
        (parseMenu norm extract text name).items = [] ∧
        (parseMenu norm extract text name).totalItems = 0 ∧
        (parseMenu norm extract text name).extractionConfidence = 0) := by
  intro norm extract text name
  have hconf : (parseMenu norm extract text name).extractionConfidence
      = ((((chunkText (norm text)).flatMap (chunkRawItems extract)).filterMap keepItem).length : ℚ)
        / ((max 1 ((chunkText (norm text)).flatMap (chunkRawItems extract)).length : ℕ) : ℚ) := rfl
  have htot : (parseMenu norm extract text name).totalItems
      = (((chunkText (norm text)).flatMap (chunkRawItems extract)).filterMap keepItem).length := rfl
  have hkle : (((chunkText (norm text)).flatMap (chunkRawItems extract)).filterMap keepItem).length
      ≤ ((chunkText (norm text)).flatMap (chunkRawItems extract)).length :=
    List.length_filterMap_le _ _
  refine ⟨?_, ?_, ?_, ?_, ?_⟩
  · rw [hconf, keptItemCount_eq, rawItemCount_eq]
  · rw [htot, keptItemCount_eq]
  · rw [hconf]
    apply div_nonneg (Nat.cast_nonneg _) (Nat.cast_nonneg _)
  · rw [hconf]
    have hden : (0 : ℚ) < ((max 1 ((chunkText (norm text)).flatMap (chunkRawItems extract)).length : ℕ) : ℚ) := by
      have : (1 : ℕ) ≤ max 1 ((chunkText (norm text)).flatMap (chunkRawItems extract)).length :=
        le_max_left _ _
      exact_mod_cast Nat.lt_of_lt_of_le Nat.zero_lt_one this
    apply (div_le_one₀ hden).mpr
    have : (((chunkText (norm text)).flatMap (chunkRawItems extract)).filterMap keepItem).length
        ≤ max 1 ((chunkText (norm text)).flatMap (chunkRawItems extract)).length :=
      le_trans hkle (le_max_right _ _)
    exact_mod_cast this
  · intro hfail
    have hraw : ∀ c : List Char, chunkRawItems extract c = [] := by
      intro c
      unfold chunkRawItems
      rw [hfail c]
    have hnil : (chunkText (norm text)).flatMap (chunkRawItems extract) = [] := by
      induction chunkText (norm text) with
      | nil => rfl
      | cons c cs ih => simp only [List.flatMap_cons, hraw c, List.nil_append, ih]
    have hitems : (parseMenu norm extract text name).items
        = ((chunkText (norm text)).flatMap (chunkRawItems extract)).filterMap keepItem := rfl
    refine ⟨?_, ?_, ?_⟩
    · rw [hitems, hnil]; rfl
    · rw [htot, hnil]; rfl
    · rw [hconf, hnil]
      norm_num

/-- Witness for `parse_confidence`: empty input with an extraction that
yields nothing gives an empty result and confidence 0, with no division
error. -/
theorem parse_confidence_witness :
    (parseMenu id (fun _ => none) [] none).items = [] ∧
    (parseMenu id (fun _ => none) [] none).totalItems = 0 ∧
    (parseMenu id (fun _ => none) [] none).extractionConfidence = 0 :=
  (parse_confidence id (fun _ => none) [] none).2.2.2.2 (fun _ => rfl)

/-! ## Retry theorems (claim C3) -/

/-- Closed form of the three-attempt retry loop: the loop consults at most
attempts 1, 2 and 3, sleeps 1 time-unit after a first failure and 2 after a
second, and returns `none` (without a third sleep) when all three fail. -/
lemma callWithRetries_eq {α : Type} (res : Nat → Option α) :
    callWithRetries res =
      match res 1 with
      | some r => (some r, [])
      | none =>
        match res 2 with
        | some r => (some r, [1])
        | none =>
          match res 3 with
          | some r => (some r, [1, 2])
          | none => (none, [1, 2]) := by
  unfold callWithRetries
  rw [retryFrom]
  cases h1 : res 1 with
  | some r => rfl
  | none =>
    dsimp only
    rw [dif_pos (by decide : 1 < maxRetries)]
    rw [retryFrom]
    cases h2 : res 2 with
    | some r => rfl
    | none =>
      dsimp only
      rw [dif_pos (by decide : 2 < maxRetries)]
      rw [retryFrom]
      cases h3 : res 3 with
      | some r => rfl
      | none =>
        dsimp only
        rw [dif_neg (by decide : ¬ 3 < maxRetries)]

/-- C3: the retrying extraction call makes at most 3 attempts (at most two
sleeps, and the outcome depends only on attempts 1-3), with exponential
backoff sleeping 1 then 2 time-units; two failures followed by a success
return the successful result, and three failures return the definitive
failure `none` — an absorbed outcome, not a propagated exception. -/
theorem callWithRetries_behaviour :
    ∀ {α : Type} (res : Nat → Option α),
      (callWithRetries res).2.length ≤ 2 ∧
      (∀ res2 : Nat → Option α, res 1 = res2 1 → res 2 = res2 2 → res 3 = res2 3 →
        callWithRetries res = callWithRetries res2) ∧
      (∀ r : α, res 1 = none → res 2 = none → res 3 = some r →
        callWithRetries res = (some r, [1, 2])) ∧
      (res 1 = none → res 2 = none → res 3 = none →
        callWithRetries res = (none, [1, 2])) := by
  intro α res
  refine ⟨?_, ?_, ?_, ?_⟩
  · rw [callWithRetries_eq]
    cases res 1 <;> cases res 2 <;> cases res 3 <;> simp
  · intro res2 e1 e2 e3
    rw [callWithRetries_eq res, callWithRetries_eq res2, e1, e2, e3]
  · intro r h1 h2 h3
    rw [callWithRetries_eq, h1, h2, h3]
  · intro h1 h2 h3
    rw [callWithRetries_eq, h1, h2, h3]

/-- Witness for `callWithRetries_behaviour`: a call failing twice then
succeeding on the 3rd attempt returns the success, after sleeps of 1 and 2
time-units. -/
theorem callWithRetries_behaviour_witness :
    callWithRetries (fun n => if n = 3 then some 7 else none) = (some 7, [1, 2]) :=
  (callWithRetries_behaviour (fun n => if n = 3 then some (7 : ℕ) else none)).2.2.1
    7 rfl rfl rfl

/-! ## Summary theorems (claim C9) -/

/-- Bumping key `k0` in the histogram adds one to its count and leaves every
other count unchanged. -/
lemma lookupCount_bump (l : List (List Char × Nat)) (k0 k : List Char) :
    lookupCount (bumpCategory l k0) k
      = lookupCount l k + (if k0 = k then 1 else 0) := by
  induction l with
  | nil =>
    simp only [bumpCategory, lookupCount]
    by_cases h : k0 = k <;> simp [h]
  | cons p rest ih =>
    obtain ⟨k1, n⟩ := p
    simp only [bumpCategory]
    by_cases h10 : k1 = k0
    · rw [if_pos h10]
      simp only [lookupCount]
      by_cases h1k : k1 = k
      · rw [if_pos h1k, if_pos h1k, if_pos (h10.symm.trans h1k)]
      · have hk0 : k0 ≠ k := fun hc => h1k (h10.trans hc)
        rw [if_neg h1k, if_neg h1k, if_neg hk0, Nat.add_zero]
    · rw [if_neg h10]
      simp only [lookupCount]
      by_cases h1k : k1 = k
      · have hk0 : k0 ≠ k := fun hc => h10 (h1k.trans hc.symm)
        rw [if_pos h1k, if_pos h1k, if_neg hk0, Nat.add_zero]
      · rw [if_neg h1k, if_neg h1k, ih]

/-- One step of the summary loop, in closed form. -/
lemma summaryStep_eq (cats : List (List Char × Nat)) (twp : Nat) (pr : List ℚ)
    (i : MenuItem) :
    summaryStep (cats, twp, pr) i
      = (bumpCategory cats (effCategory i),
         twp + (if hasAnyPrice i then 1 else 0),
         pr ++ (truthyPrimary i).toList) := by
  unfold summaryStep effCategory
  by_cases hp : hasAnyPrice i = true
  · simp only [hp, if_true]
    cases hq : getPrimaryPrice i with
    | none => simp [truthyPrimary, hp, hq]
    | some q =>
      by_cases hq0 : q = 0
      · simp [truthyPrimary, hp, hq, hq0]
      · simp [truthyPrimary, hp, hq, hq0]
  · simp [truthyPrimary, hp]

/-- Folding the summary loop over a list of items: the histogram counts every
item under its effective category, priced items are counted, and the price
list accumulates exactly the truthy primary prices. -/
lemma summary_foldl (items : List MenuItem) :
    ∀ (cats : List (List Char × Nat)) (twp : Nat) (pr : List ℚ),
      (∀ k, lookupCount (items.foldl summaryStep (cats, twp, pr)).1 k
          = lookupCount cats k + items.countP (fun i => effCategory i = k)) ∧
      (items.foldl summaryStep (cats, twp, pr)).2.1
          = twp + items.countP (fun i => hasAnyPrice i) ∧
      (items.foldl summaryStep (cats, twp, pr)).2.2
          = pr ++ items.filterMap truthyPrimary := by
  induction items with
  | nil => intro cats twp pr; simp
  | cons i rest ih =>
    intro cats twp pr
    rw [List.foldl_cons, summaryStep_eq]
    obtain ⟨ih1, ih2, ih3⟩ := ih (bumpCategory cats (effCategory i))
      (twp + (if hasAnyPrice i then 1 else 0)) (pr ++ (truthyPrimary i).toList)
    refine ⟨?_, ?_, ?_⟩
    · intro k
      rw [ih1 k, lookupCount_bump, List.countP_cons]
      by_cases he : effCategory i = k <;> (simp [he]; try omega)
    · rw [ih2, List.countP_cons]
      by_cases hp : hasAnyPrice i <;> (simp [hp]; try omega)
    · rw [ih3, List.filterMap_cons]
      cases truthyPrimary i <;> simp

/-- C9 (amended): `get_summary` returns the item count, the count of items
with at least one price, a category histogram counting each item under
`category or "Uncategorized"`, the detected currency, and a price range whose
min, max and avg are computed over the primary prices (as returned by
`get_primary_price`) that are non-null **and non-zero**; items whose primary
price is null or 0 contribute nothing to the price range even when they have
a price. -/
theorem getSummary_characterization (md : MenuData) :
    (∀ k, lookupCount (getSummary md).categories k
        = md.items.countP (fun i => effCategory i = k)) ∧
    (getSummary md).totalItems = md.items.length ∧
    (getSummary md).itemsWithPrices = md.items.countP (fun i => hasAnyPrice i) ∧
    (getSummary md).priceRange.min = pyMinQ (md.items.filterMap truthyPrimary) ∧
    (getSummary md).priceRange.max = pyMaxQ (md.items.filterMap truthyPrimary) ∧
    (getSummary md).priceRange.avg
      = (match md.items.filterMap truthyPrimary with
         | [] => none
         | l => some (l.sum / (l.length : ℚ))) ∧
    (getSummary md).currency = md.detectedCurrency := by
  obtain ⟨h1, h2, h3⟩ := summary_foldl md.items [] 0 []
  refine ⟨?_, rfl, ?_, ?_, ?_, ?_, rfl⟩
  · intro k
    have := h1 k
    simpa [lookupCount] using this
  · simpa using h2
  · show pyMinQ ((md.items.foldl summaryStep ([], 0, [])).2.2) = _
    rw [h3, List.nil_append]
  · show pyMaxQ ((md.items.foldl summaryStep ([], 0, [])).2.2) = _
    rw [h3, List.nil_append]
  · show (match (md.items.foldl summaryStep ([], 0, [])).2.2 with
         | [] => none
         | l => some (l.sum / (l.length : ℚ))) = _
    rw [h3, List.nil_append]

/-- An item whose only price is 0. -/
def zeroOnlyItem : MenuItem := { itemName := ['A', 'a'], price := some 0 }

/-- A one-item menu whose item has a price field (0) but a falsy primary
price. -/
def zeroOnlyMenu : MenuData := { items := [zeroOnlyItem] }

/-- Counterexample to C9: the menu `zeroOnlyMenu` contains one item that has
at least one price (`price = 0`), yet `get_summary` reports an empty price
range (`min = None`), whereas the min over the primary price of every priced
item (primary price per the spec: first non-null) would be 0. -/
theorem getSummary_zero_primary_excluded :
    (getSummary zeroOnlyMenu).priceRange.min ≠ pyMinQ (specPriceList zeroOnlyMenu) ∧
    (getSummary zeroOnlyMenu).priceRange.min = none ∧
    pyMinQ (specPriceList zeroOnlyMenu) = some 0 ∧
    hasAnyPrice zeroOnlyItem = true := by
  refine ⟨by decide, by decide, by decide, by decide⟩

end RestaurantETL
